import Mathlib

/-!
Shallow embedding of the application core of `comet` (src/src/app.rs), a
terminal browser client for a line-oriented hypertext protocol.  Machine
integers are embedded as `Nat`: the `u16` scroll arithmetic reduces modulo
65536 where the Rust operation can wrap (release-build semantics of `+=`),
and `saturating_sub` is ordinary truncated `Nat` subtraction.  The `usize`
subtraction `len - 1` inside `next_link`/`previous_link` is embedded as
truncated `Nat` subtraction; it differs from `usize` wrapping only in states
where `link_indices` is empty while a link is highlighted, which the
operations never produce.  Fallible operations return `Option`/`Except`,
with `none`/`error` marking a Rust panic or channel error.
-/

namespace Comet

/-- Modelled from the spec: the external `minigem` line type.  A fetched
document is a sequence of classified lines; only the classification and a
Link line's target/label are consumed by the application core. -/
inductive Line where
  | text (s : String)
  | heading (level : Nat) (s : String)
  | unorderedListItem (s : String)
  | link (target : String) (label : Option String)
  | other
deriving DecidableEq, Repr

inductive LineKind where
  | text
  | heading
  | unorderedListItem
  | link
  | other
deriving DecidableEq, Repr

/-- `Line::kind()` of the external line type. -/
def Line.kind : Line → LineKind
  | .text _ => .text
  | .heading _ _ => .heading
  | .unorderedListItem _ => .unorderedListItem
  | .link _ _ => .link
  | .other => .other

/-- `Line::link()` of the external line type: the target of a Link line. -/
def Line.linkTarget : Line → Option String
  | .link target _ => some target
  | _ => none

/-- `std::collections::HashMap<usize, usize>` embedded as an association
list; `insert` overwrites any previous binding of the key. -/
def hmInsert (m : List (Nat × Nat)) (k v : Nat) : List (Nat × Nat) :=
  (k, v) :: m.filter (fun p => p.1 != k)

/-- Lookup in the association-list embedding of `HashMap`. -/
def hmLookup (m : List (Nat × Nat)) (k : Nat) : Option Nat :=
  (m.find? (fun p => p.1 == k)).map Prod.snd

/-- Key set of the association-list embedding of `HashMap`. -/
def hmKeys (m : List (Nat × Nat)) : List Nat :=
  m.map Prod.fst

/-- `Page` (src/src/app.rs lines 21-26). -/
structure Page where
  lines : List Line
  link_indices : List Nat
  link_numbers : List (Nat × Nat)
  highlighted_link : Option Nat
deriving DecidableEq, Repr

/-- `History` (src/src/app.rs lines 28-31): two stacks of addresses, the
top of each being the last element of the list (Rust `Vec` push/pop end). -/
structure History where
  prev : List String
  next : List String
deriving DecidableEq, Repr

/-- `History::new`. -/
def History.new : History := ⟨[], []⟩

/-- `History::push`: append to `prev`, clear `next`. -/
def History.push (h : History) (link : String) : History :=
  ⟨h.prev ++ [link], []⟩

/-- `History::prev` (the method, src lines 46-53): if `prev` has more than
one element, pop its top onto `next` and return the new top of `prev`. -/
def History.goBack (h : History) : History × Option String :=
  if h.prev.length > 1 then
    (⟨h.prev.dropLast, h.next ++ h.prev.getLast?.toList⟩, h.prev.dropLast.getLast?)
  else
    (h, none)

/-- `History::next` (the method, src lines 60-65): pop the top of `next`,
push it onto `prev`, and return it. -/
def History.goForward (h : History) : History × Option String :=
  match h.next.getLast? with
  | some link => (⟨h.prev ++ [link], h.next.dropLast⟩, some link)
  | none => (h, none)

/-- `History::has_prev`. -/
def History.has_prev (h : History) : Bool :=
  h.prev.length > 1

/-- `History::has_next`. -/
def History.has_next (h : History) : Bool :=
  !h.next.isEmpty

/-- `NetworkEvent` (src/src/app.rs lines 13-19). -/
inductive NetworkEvent where
  | pageLoaded (address : String) (lines : List Line) (push_history : Bool)
deriving DecidableEq, Repr

/-- `Action` (src/src/app.rs lines 9-11). -/
inductive Action where
  | pageRequest (link : String) (push_history : Bool)
deriving DecidableEq, Repr

/-- `App` (src/src/app.rs lines 73-82).  The mpsc channel is embedded as the
list `channel` of completion messages in arrival order (head = oldest);
`pending` holds dispatched fetches whose worker has not yet sent its
completion; `senderAlive` records that the `_in_tx` sender half is still
owned (it always is: the `App` retains it for its whole lifetime). -/
structure App where
  page : Page
  scroll : Nat
  height : Nat
  search : String
  address : String
  history : History
  channel : List NetworkEvent
  pending : List (String × Bool)
  senderAlive : Bool
deriving DecidableEq, Repr

/-- `App::new` (src lines 111-129). -/
def App.new : App where
  page := ⟨[], [], [], none⟩
  scroll := 0
  height := 0
  search := "gemini://gemini.circumlunar.space/"
  address := "gemini://gemini.circumlunar.space/"
  history := History.new
  channel := []
  pending := []
  senderAlive := true

/-- `App::dispatch` / `load_page`: spawn a fetch worker for the request; in
the embedding the request joins the pending set, its completion to be
delivered to the channel by a later environment step. -/
def App.dispatch (a : App) : Action → App
  | .pageRequest link push_history =>
      { a with pending := a.pending ++ [(link, push_history)] }

/-- `App::scroll_down` (src lines 135-137): unchecked `u16` increment. -/
def App.scrollDown (a : App) : App :=
  { a with scroll := (a.scroll + 1) % 65536 }

/-- `App::scroll_up` (src lines 139-141): `saturating_sub(1)`. -/
def App.scrollUp (a : App) : App :=
  { a with scroll := a.scroll - 1 }

/-- `App::page_forward` (src lines 143-149). -/
def App.pageForward (a : App) : App :=
  let scroll := (a.scroll + a.height) % 65536
  let maxScroll := (a.page.lines.length - 1) % 65536
  { a with scroll := if scroll > maxScroll then maxScroll else scroll }

/-- `App::page_backward` (src lines 151-153): `saturating_sub(height)`. -/
def App.pageBackward (a : App) : App :=
  { a with scroll := a.scroll - a.height }

/-- `App::next_link` (src lines 175-190). -/
def App.nextLink (a : App) : App :=
  { a with page := { a.page with highlighted_link :=
      match a.page.highlighted_link with
      | some index =>
          some (if index == a.page.link_indices.length - 1 then 0 else index + 1)
      | none =>
          if !a.page.link_indices.isEmpty then some 0 else none } }

/-- `App::previous_link` (src lines 192-207). -/
def App.previousLink (a : App) : App :=
  { a with page := { a.page with highlighted_link :=
      match a.page.highlighted_link with
      | some index =>
          some (if index == 0 then a.page.link_indices.length - 1 else index - 1)
      | none =>
          if !a.page.link_indices.isEmpty then
            some (a.page.link_indices.length - 1)
          else none } }

/-- `App::clear_highlighted` (src lines 210-212). -/
def App.clearHighlighted (a : App) : App :=
  { a with page := { a.page with highlighted_link := none } }

/-- `App::request_page_from_input` (src lines 215-220). -/
def App.requestPageFromInput (a : App) : App :=
  a.dispatch (.pageRequest a.search true)

/-- `App::page_next` (src lines 155-163): move the history forward, then
dispatch a non-history-extending request for the returned address, if any. -/
def App.pageNext (a : App) : App :=
  match a.history.goForward with
  | (h, some link) => ({ a with history := h } : App).dispatch (.pageRequest link false)
  | (h, none) => { a with history := h }

/-- `App::page_prev` (src lines 165-173): move the history back, then
dispatch a non-history-extending request for the returned address, if any. -/
def App.pagePrev (a : App) : App :=
  match a.history.goBack with
  | (h, some link) => ({ a with history := h } : App).dispatch (.pageRequest link false)
  | (h, none) => { a with history := h }

/-- Error cases of the external URL parser that the code distinguishes:
`ParseError::RelativeUrlWithoutBase` versus every other parse error. -/
inductive UrlParseError where
  | relativeUrlWithoutBase
  | other
deriving DecidableEq, Repr

/-- Modelled from the spec: the external `url` crate's parsed-URL value, as
far as the spec's link-resolution rules consume it (scheme, host, and the
path as a list of `/`-separated segments). -/
structure Url where
  scheme : String
  host : String
  path : List String
deriving DecidableEq, Repr

/-- Split a character sequence at the first occurrence of `"://"`. -/
def breakScheme : List Char → Option (List Char × List Char)
  | [] => none
  | ':' :: '/' :: '/' :: rest => some ([], rest)
  | c :: rest => (breakScheme rest).map (fun p => (c :: p.1, p.2))

/-- Split a character sequence on `'/'` separators. -/
def splitSlash : List Char → List (List Char)
  | [] => [[]]
  | '/' :: rest => [] :: splitSlash rest
  | c :: rest =>
    match splitSlash rest with
    | s :: ss => (c :: s) :: ss
    | [] => [[c]]

/-- Modelled from the spec: `Url::parse`.  A string with a
`scheme://host/...` shape parses absolutely; a plain segment/path reference
with no scheme is a relative reference (`RelativeUrlWithoutBase`); anything
else is malformed under both absolute and relative resolution. -/
def Url.parse (s : String) : Except UrlParseError Url :=
  match breakScheme s.data with
  | some (scheme, rest) =>
      if !scheme.isEmpty && scheme.all Char.isAlpha then
        match splitSlash rest with
        | host :: segs =>
            if host.isEmpty then .error .other
            else .ok ⟨⟨scheme⟩, ⟨host⟩, segs.map (fun cs => (⟨cs⟩ : String))⟩
        | [] => .error .other
      else .error .other
  | none =>
      if !s.data.isEmpty && s.data.all (fun c =>
          c.isAlphanum || c == '/' || c == '.' || c == '-' || c == '_') then
        .error .relativeUrlWithoutBase
      else .error .other

/-- Join path segments back with `'/'` separators. -/
def joinSlash : List String → String
  | [] => ""
  | [s] => s
  | s :: s2 :: rest => s ++ "/" ++ joinSlash (s2 :: rest)

/-- Modelled from the spec: `Url::as_str`, rendering a parsed URL back to a
string. -/
def Url.render (u : Url) : String :=
  u.scheme ++ "://" ++ u.host ++ "/" ++ joinSlash u.path

/-- Modelled from the spec: `Url::join`, resolving a relative reference
against a base URL — a root-relative reference replaces the whole path, any
other reference replaces the last path segment. -/
def Url.join (base : Url) (rel : String) : Url :=
  match rel.data with
  | '/' :: restChars =>
      { base with path := (splitSlash restChars).map (fun cs => (⟨cs⟩ : String)) }
  | _ =>
      { base with path :=
          base.path.dropLast ++ (splitSlash rel.data).map (fun cs => (⟨cs⟩ : String)) }

/-- `App::request_page_from_selected` (src lines 222-242).  `none` marks a
Rust panic: an out-of-bounds index, a `link()` unwrap on a non-Link line, or
the `unwrap` of parsing `self.address` in the relative-join branch. -/
def App.requestPageFromSelected (a : App) : Option App :=
  match a.page.highlighted_link with
  | none => some a
  | some index =>
    match a.page.link_indices.get? index with
    | none => none
    | some pos =>
      match a.page.lines.get? pos with
      | none => none
      | some line =>
        match line.linkTarget with
        | none => none
        | some text =>
          match Url.parse text with
          | .ok url => some (a.dispatch (.pageRequest url.render true))
          | .error .relativeUrlWithoutBase =>
            match Url.parse a.address with
            | .ok base => some (a.dispatch (.pageRequest ((base.join text).render) true))
            | .error _ => none
          | .error .other => some a

/-- The scan in `App::handle_event` (src lines 268-276): walk the delivered
lines in order; every Link-kind line at position `i` is appended to
`link_indices` after `link_numbers.insert(i, link_indices.len())`.  The
accumulator `nums` starts from the previous page's `link_numbers`, which the
code does not clear. -/
def scanLinks : List Line → Nat → List Nat → List (Nat × Nat) → List Nat × List (Nat × Nat)
  | [], _, idxs, nums => (idxs, nums)
  | l :: rest, i, idxs, nums =>
    match l.kind with
    | .link => scanLinks rest (i + 1) (idxs ++ [i]) (hmInsert nums i idxs.length)
    | _ => scanLinks rest (i + 1) idxs nums

/-- `App::handle_event` (src lines 260-285). -/
def App.handleEvent (a : App) : NetworkEvent → App
  | .pageLoaded address lines push_history =>
    let scan := scanLinks lines 0 [] a.page.link_numbers
    let a := { a with
      page := ⟨lines, scan.1, scan.2, none⟩
      scroll := 0
      address := address }
    if push_history then { a with history := a.history.push a.address } else a

/-- The two outcomes `try_recv` can report when the channel holds no
message. -/
inductive RecvError where
  | disconnected
deriving DecidableEq, Repr

/-- The loop of `App::drain_events` (src lines 244-258), recursing on the
messages still buffered in the channel.  When the buffer is exhausted,
`try_recv` reports `Empty` while a sender half is alive (loop exits `Ok`)
and `Disconnected` otherwise (the `err?` branch). -/
def App.drainFrom : List NetworkEvent → App → Except RecvError App
  | e :: rest, a => App.drainFrom rest (a.handleEvent e)
  | [], a => if a.senderAlive then .ok a else .error .disconnected

/-- `App::tick` / `App::drain_events` (src lines 131-133, 244-258): drain
every buffered completion message in arrival order. -/
def App.tick (a : App) : Except RecvError App :=
  App.drainFrom a.channel { a with channel := [] }

/-- One step of the application core running against its asynchronous
environment: any public `App` operation, the rendering layer supplying a
viewport height, or a fetch worker completing (in any order among the
in-flight fetches, with network-determined lines) and enqueueing its
completion message at the channel's tail. -/
inductive Step : App → App → Prop
  | scrollDown (a : App) : Step a a.scrollDown
  | scrollUp (a : App) : Step a a.scrollUp
  | pageForward (a : App) : Step a a.pageForward
  | pageBackward (a : App) : Step a a.pageBackward
  | nextLink (a : App) : Step a a.nextLink
  | previousLink (a : App) : Step a a.previousLink
  | clearHighlighted (a : App) : Step a a.clearHighlighted
  | pagePrev (a : App) : Step a a.pagePrev
  | pageNext (a : App) : Step a a.pageNext
  | requestPageFromInput (a : App) : Step a a.requestPageFromInput
  | requestPageFromSelected (a a' : App) :
      a.requestPageFromSelected = some a' → Step a a'
  | tick (a a' : App) : a.tick = .ok a' → Step a a'
  | setHeight (a : App) (h : Nat) : Step a { a with height := h % 65536 }
  | netComplete (a : App) (l r : List (String × Bool)) (link : String)
      (ph : Bool) (lines : List Line) :
      a.pending = l ++ [(link, ph)] ++ r →
      Step a { a with pending := l ++ r,
                      channel := a.channel ++ [.pageLoaded link lines ph] }

/-- The app states reachable from `App::new` under `Step`. -/
def Reach (a : App) : Prop :=
  Relation.ReflTransGen Step App.new a

/-- Environment helper: complete the oldest in-flight fetch with the given
lines, moving its completion message into the channel. -/
def App.completeFirst (a : App) (lines : List Line) : App :=
  match a.pending with
  | (link, ph) :: rest =>
      { a with pending := rest, channel := a.channel ++ [.pageLoaded link lines ph] }
  | [] => a

/-- Helper: the state after a successful `tick`, the state itself if the
drain errored. -/
def App.tickOk (a : App) : App :=
  (a.tick).toOption.getD a

/-- An application-core operation in the synchronous regime: any request the
operation dispatches is completed by the network (with the given lines) and
its completion message drained before the next operation runs, so fetches
never overlap. -/
inductive Op where
  | scrollDown
  | scrollUp
  | pageForward
  | pageBackward
  | nextLink
  | previousLink
  | clearHighlighted
  | setHeight (h : Nat)
  | tick
  | pagePrevSync (lines : List Line)
  | pageNextSync (lines : List Line)
  | requestInputSync (lines : List Line)
  | requestSelectedSync (lines : List Line)

/-- Run one synchronous-regime operation.  The `Sync` operations complete
and drain their own dispatched request atomically; a panic inside
`request_page_from_selected` (which destroys the app) is embedded as a
stutter. -/
def runOp (a : App) : Op → App
  | .scrollDown => a.scrollDown
  | .scrollUp => a.scrollUp
  | .pageForward => a.pageForward
  | .pageBackward => a.pageBackward
  | .nextLink => a.nextLink
  | .previousLink => a.previousLink
  | .clearHighlighted => a.clearHighlighted
  | .setHeight h => { a with height := h % 65536 }
  | .tick => a.tickOk
  | .pagePrevSync lines => ((a.pagePrev).completeFirst lines).tickOk
  | .pageNextSync lines => ((a.pageNext).completeFirst lines).tickOk
  | .requestInputSync lines => ((a.requestPageFromInput).completeFirst lines).tickOk
  | .requestSelectedSync lines =>
      (((a.requestPageFromSelected).getD a).completeFirst lines).tickOk

/-- Run a sequence of synchronous-regime operations from a start state. -/
def runOps (a : App) (ops : List Op) : App :=
  ops.foldl runOp a

/-! ## Theorems -/

/-- C1: applying a `PageLoaded(address, lines, push_history)` completion
message leaves `page.lines` equal to the delivered lines, clears
`highlighted_link`, resets `scroll` to 0, sets `address` to the delivered
address, and pushes the (new) address onto History exactly when
`push_history` is set — the page rebuild and resets having happened before
the push, so the pushed element is the delivered address itself. -/
theorem c1_page_loaded (a : App) (addr : String) (lines : List Line) (ph : Bool) :
    ((a.handleEvent (.pageLoaded addr lines ph)).page.lines = lines) ∧
    ((a.handleEvent (.pageLoaded addr lines ph)).page.highlighted_link = none) ∧
    ((a.handleEvent (.pageLoaded addr lines ph)).scroll = 0) ∧
    ((a.handleEvent (.pageLoaded addr lines ph)).address = addr) ∧
    ((a.handleEvent (.pageLoaded addr lines ph)).history =
      if ph then a.history.push addr else a.history) := by
  cases ph <;> simp [App.handleEvent]

/-- C3: `go_back` pops the top of `prev` onto `next` and returns the new
top of `prev` when `prev` has more than one element, and is a no-op
otherwise; `go_forward` pops the top of `next` onto `prev` and returns that
address when `next` is non-empty, and is a no-op otherwise; and the
concrete scenario: after pushes A, B, C, going back twice yields B then A
with no further back available, going forward twice then yields B then C,
and a fresh push of D while at B leaves no forward path. -/
theorem c3_history_two_stack :
    (∀ h : History, h.prev.length ≤ 1 → h.goBack = (h, none)) ∧
    (∀ h : History, 1 < h.prev.length →
      (h.goBack).1.prev = h.prev.dropLast ∧
      (h.goBack).1.next = h.next ++ h.prev.getLast?.toList ∧
      (h.goBack).2 = h.prev.dropLast.getLast?) ∧
    (∀ h : History, h.next = [] → h.goForward = (h, none)) ∧
    (∀ (h : History) (x : String), h.next.getLast? = some x →
      (h.goForward).2 = some x ∧
      (h.goForward).1.prev = h.prev ++ [x] ∧
      (h.goForward).1.next = h.next.dropLast) ∧
    ((((History.new.push "A").push "B").push "C").goBack.2 = some "B" ∧
      (((History.new.push "A").push "B").push "C").goBack.1.goBack.2 = some "A" ∧
      (((History.new.push "A").push "B").push "C").goBack.1.goBack.1.has_prev = false ∧
      (((History.new.push "A").push "B").push "C").goBack.1.goBack.1.goForward.2 = some "B" ∧
      (((History.new.push "A").push "B").push "C").goBack.1.goBack.1.goForward.1.goForward.2
        = some "C" ∧
      ((((History.new.push "A").push "B").push "C").goBack.1.goBack.1.goForward.1.push "D").has_next
        = false) := by
  refine ⟨?_, ?_, ?_, ?_, ?_⟩
  · intro h hle
    simp [History.goBack, Nat.not_lt.mpr hle]
  · intro h hlt
    simp [History.goBack, hlt]
  · intro h hn
    simp [History.goForward, hn]
  · intro h x hx
    simp [History.goForward, hx]
  · decide

/-- Witness for `c3_history_two_stack`, instantiating each conditional part
at a concrete history. -/
theorem c3_history_two_stack_witness :
    (History.goBack ⟨["a"], []⟩ = (⟨["a"], []⟩, none)) ∧
    ((History.goBack ⟨["a", "b"], []⟩).1.prev = ["a"]) ∧
    (History.goForward ⟨["a"], []⟩ = (⟨["a"], []⟩, none)) ∧
    ((History.goForward ⟨["a"], ["b"]⟩).2 = some "b") :=
  ⟨c3_history_two_stack.1 ⟨["a"], []⟩ (by decide),
    by rw [(c3_history_two_stack.2.1 ⟨["a", "b"], []⟩ (by decide)).1]; decide,
    c3_history_two_stack.2.2.1 ⟨["a"], []⟩ rfl,
    (c3_history_two_stack.2.2.2.1 ⟨["a"], ["b"]⟩ "b" rfl).1⟩

/-- C2 (code bug witness): after loading a page whose only line is a Link
and then a page with no links, `link_numbers` still holds the stale key 0
from the first page — `handle_event` clears `link_indices` but never clears
`link_numbers` — so its key set is not the set of Link positions of the
current page. -/
theorem c2_stale_link_numbers_eval :
    (hmKeys (((App.new.handleEvent (.pageLoaded "gem://a/" [Line.link "x" none] true)).handleEvent
        (.pageLoaded "gem://b/" [Line.text "y"] false)).page.link_numbers) = [0]) ∧
    (((App.new.handleEvent (.pageLoaded "gem://a/" [Line.link "x" none] true)).handleEvent
        (.pageLoaded "gem://b/" [Line.text "y"] false)).page.link_indices = []) ∧
    (((App.new.handleEvent (.pageLoaded "gem://a/" [Line.link "x" none] true)).handleEvent
        (.pageLoaded "gem://b/" [Line.text "y"] false)).page.lines.all
          (fun l => l.kind != LineKind.link) = true) := by
  decide

/-- Well-formedness of the highlight: absent, or a valid index into
`link_indices`. -/
def hlOk (a : App) : Prop :=
  ∀ i, a.page.highlighted_link = some i → i < a.page.link_indices.length

lemma nextLink_highlighted (a : App) :
    (a.nextLink).page.highlighted_link =
      match a.page.highlighted_link with
      | some index =>
          some (if index == a.page.link_indices.length - 1 then 0 else index + 1)
      | none => if !a.page.link_indices.isEmpty then some 0 else none := rfl

lemma previousLink_highlighted (a : App) :
    (a.previousLink).page.highlighted_link =
      match a.page.highlighted_link with
      | some index =>
          some (if index == 0 then a.page.link_indices.length - 1 else index - 1)
      | none =>
          if !a.page.link_indices.isEmpty then
            some (a.page.link_indices.length - 1)
          else none := rfl

lemma nextLink_link_indices (a : App) :
    (a.nextLink).page.link_indices = a.page.link_indices := rfl

lemma previousLink_link_indices (a : App) :
    (a.previousLink).page.link_indices = a.page.link_indices := rfl

/-- Apply a sequence of link-highlight moves (`true` = `next_link`,
`false` = `previous_link`). -/
def applyNav (a : App) (ops : List Bool) : App :=
  ops.foldl (fun s b => if b then s.nextLink else s.previousLink) a

lemma nextLink_hlOk (a : App) (h : hlOk a) : hlOk a.nextLink := by
  intro j hj
  rw [nextLink_highlighted] at hj
  rw [nextLink_link_indices]
  cases hh : a.page.highlighted_link with
  | none =>
      rw [hh] at hj
      by_cases he : a.page.link_indices.isEmpty
      · simp [he] at hj
      · simp only [he, Bool.not_false, if_true, Option.some.injEq] at hj
        subst hj
        simpa [List.isEmpty_iff, List.length_pos_iff_ne_nil] using he
  | some i =>
      have hi := h i hh
      rw [hh] at hj
      simp only [Option.some.injEq] at hj
      subst hj
      by_cases hb : i = a.page.link_indices.length - 1
      · simp [hb]; omega
      · simp only [beq_iff_eq, hb, if_false]; omega

lemma previousLink_hlOk (a : App) (h : hlOk a) : hlOk a.previousLink := by
  intro j hj
  rw [previousLink_highlighted] at hj
  rw [previousLink_link_indices]
  cases hh : a.page.highlighted_link with
  | none =>
      rw [hh] at hj
      by_cases he : a.page.link_indices.isEmpty
      · simp [he] at hj
      · simp only [he, Bool.not_false, if_true, Option.some.injEq] at hj
        subst hj
        have : a.page.link_indices ≠ [] := by simpa [List.isEmpty_iff] using he
        have := List.length_pos_iff_ne_nil.mpr this
        omega
  | some i =>
      have hi := h i hh
      rw [hh] at hj
      simp only [Option.some.injEq] at hj
      subst hj
      by_cases hb : i = 0
      · simp only [hb, beq_self_eq_true, if_true]; omega
      · simp only [beq_iff_eq, hb, if_false]; omega

/-- C5: over any sequence of `next_link`/`previous_link` calls the
highlight stays well formed; with no links both calls leave it `none`; with
`n > 0` links each call lands on an index inside `[0, n)`, wrapping
circularly at both ends; and on a page with 3 links `previous_link` from no
highlight selects link 2 and a second call selects link 1. -/
theorem c5_link_navigation :
    (∀ a : App, a.page.link_indices = [] → a.page.highlighted_link = none →
      (a.nextLink).page.highlighted_link = none ∧
      (a.previousLink).page.highlighted_link = none) ∧
    (∀ (a : App) (ops : List Bool), hlOk a → hlOk (applyNav a ops)) ∧
    (∀ a : App, 0 < a.page.link_indices.length → hlOk a →
      (∃ j, (a.nextLink).page.highlighted_link = some j ∧
        j < a.page.link_indices.length) ∧
      (∃ j, (a.previousLink).page.highlighted_link = some j ∧
        j < a.page.link_indices.length)) ∧
    (∀ a : App, a.page.highlighted_link = some (a.page.link_indices.length - 1) →
      (a.nextLink).page.highlighted_link = some 0) ∧
    (∀ a : App, 0 < a.page.link_indices.length →
      a.page.highlighted_link = some 0 →
      (a.previousLink).page.highlighted_link =
        some (a.page.link_indices.length - 1)) ∧
    (∀ a : App, a.page.link_indices.length = 3 → a.page.highlighted_link = none →
      (a.previousLink).page.highlighted_link = some 2 ∧
      ((a.previousLink).previousLink).page.highlighted_link = some 1) := by
  refine ⟨?_, ?_, ?_, ?_, ?_, ?_⟩
  · intro a hidx hhl
    simp [App.nextLink, App.previousLink, hidx, hhl]
  · intro a ops h
    induction ops generalizing a with
    | nil => exact h
    | cons b rest ih =>
        cases b
        · exact ih _ (previousLink_hlOk a h)
        · exact ih _ (nextLink_hlOk a h)
  · intro a hn h
    have hne : ¬ a.page.link_indices.isEmpty := by
      simp [List.isEmpty_iff, ← List.length_pos_iff_ne_nil, hn]
    constructor
    · cases hh : a.page.highlighted_link with
      | none =>
          refine ⟨0, ?_, hn⟩
          rw [nextLink_highlighted, hh]
          simp [hne]
      | some i =>
          refine ⟨if i == a.page.link_indices.length - 1 then 0 else i + 1, ?_, ?_⟩
          · rw [nextLink_highlighted, hh]
          · have hi := h i hh
            by_cases hb : i = a.page.link_indices.length - 1
            · simp [hb]; omega
            · simp only [beq_iff_eq, hb, if_false]; omega
    · cases hh : a.page.highlighted_link with
      | none =>
          refine ⟨a.page.link_indices.length - 1, ?_, by omega⟩
          rw [previousLink_highlighted, hh]
          simp [hne]
      | some i =>
          refine ⟨if i == 0 then a.page.link_indices.length - 1 else i - 1, ?_, ?_⟩
          · rw [previousLink_highlighted, hh]
          · have hi := h i hh
            by_cases hb : i = 0
            · simp only [hb, beq_self_eq_true, if_true]; omega
            · simp only [beq_iff_eq, hb, if_false]; omega
  · intro a hhl
    simp [App.nextLink, hhl]
  · intro a hn hhl
    have : ¬(0 == a.page.link_indices.length - 1) ∨ a.page.link_indices.length = 1 := by
      rcases Nat.lt_or_ge 1 a.page.link_indices.length with h1 | h1
      · left; simp [beq_iff_eq]; omega
      · right; omega
    rcases this with h1 | h1
    · simp [App.previousLink, hhl, h1]
    · simp [App.previousLink, hhl, h1]
  · intro a h3 hhl
    have hidx : ¬ a.page.link_indices.isEmpty := by
      simp [List.isEmpty_iff, ← List.length_pos_iff_ne_nil, h3]
    constructor
    · simp [App.previousLink, hhl, hidx, h3]
    · have hl2 : (a.previousLink).page.link_indices = a.page.link_indices := by
        simp [App.previousLink]
      simp [App.previousLink, hhl, hidx, h3, beq_iff_eq]

/-- Witness for `c5_link_navigation`, instantiated on a concrete page with
three links. -/
theorem c5_link_navigation_witness :
    ((App.nextLink { App.new with page := ⟨[], [], [], none⟩ }).page.highlighted_link = none) ∧
    hlOk (applyNav { App.new with
      page := ⟨[Line.link "u" none, Line.link "v" none, Line.link "w" none],
        [0, 1, 2], [(2, 2), (1, 1), (0, 0)], none⟩ } [true, true, false, false]) ∧
    ((App.previousLink { App.new with
      page := ⟨[Line.link "u" none, Line.link "v" none, Line.link "w" none],
        [0, 1, 2], [(2, 2), (1, 1), (0, 0)], none⟩ }).page.highlighted_link = some 2) :=
  ⟨(c5_link_navigation.1 _ rfl rfl).1,
    c5_link_navigation.2.1 _ [true, true, false, false] (fun _ hi => nomatch hi),
    (c5_link_navigation.2.2.2.2.2 _ (by decide) rfl).1⟩

/-- C6: `page_forward` sets `scroll` to the (wrapping-`u16`) sum of `scroll`
and `height` clamped to the page's maximum scroll, so its result — and
hence any positive number of repetitions — never exceeds `N - 1` lines (0
when the page is empty); `page_backward` subtracts `height` saturating at
0; and `scroll_up` from 0 stays at 0. -/
theorem c6_paging_bounds :
    (∀ a : App, (a.pageForward).scroll =
      min ((a.scroll + a.height) % 65536) ((a.page.lines.length - 1) % 65536)) ∧
    (∀ a : App, (a.pageForward).scroll ≤ a.page.lines.length - 1) ∧
    (∀ (a : App) (k : Nat), 0 < k →
      ((App.pageForward)^[k] a).scroll ≤ a.page.lines.length - 1) ∧
    (∀ a : App, (a.pageBackward).scroll = a.scroll - a.height) ∧
    (∀ a : App, a.scroll = 0 → (a.scrollUp).scroll = 0) := by
  have hpage : ∀ (a : App) (k : Nat), ((App.pageForward)^[k] a).page = a.page := by
    intro a k
    induction k with
    | zero => rfl
    | succ n ih => rw [Function.iterate_succ_apply', ← ih]; rfl
  have hstep : ∀ a : App, (a.pageForward).scroll =
      min ((a.scroll + a.height) % 65536) ((a.page.lines.length - 1) % 65536) := by
    intro a
    simp only [App.pageForward]
    split <;> omega
  have hbound : ∀ a : App, (a.pageForward).scroll ≤ a.page.lines.length - 1 := by
    intro a
    rw [hstep a]
    have := Nat.mod_le (a.page.lines.length - 1) 65536
    omega
  refine ⟨hstep, hbound, ?_, fun _ => rfl, ?_⟩
  · intro a k hk
    obtain ⟨n, rfl⟩ := Nat.exists_eq_succ_of_ne_zero (Nat.pos_iff_ne_zero.mp hk)
    rw [Function.iterate_succ_apply']
    have := hbound ((App.pageForward)^[n] a)
    rwa [hpage a n] at this
  · intro a h0
    simp [App.scrollUp, h0]

/-- Witness for `c6_paging_bounds`, instantiating the conditional parts at
the fresh app. -/
theorem c6_paging_bounds_witness :
    (((App.pageForward)^[3] App.new).scroll ≤ App.new.page.lines.length - 1) ∧
    ((App.scrollUp App.new).scroll = 0) :=
  ⟨c6_paging_bounds.2.2.1 App.new 3 (by decide),
    c6_paging_bounds.2.2.2.2 App.new rfl⟩

lemma handleEvent_set_channel (a : App) (e : NetworkEvent) (ch : List NetworkEvent) :
    ({ a with channel := ch } : App).handleEvent e = { a.handleEvent e with channel := ch } := by
  cases e with
  | pageLoaded addr lines ph => cases ph <;> rfl

lemma handleEvent_channel (a : App) (e : NetworkEvent) :
    (a.handleEvent e).channel = a.channel := by
  cases e with
  | pageLoaded addr lines ph => cases ph <;> rfl

lemma handleEvent_senderAlive (a : App) (e : NetworkEvent) :
    (a.handleEvent e).senderAlive = a.senderAlive := by
  cases e with
  | pageLoaded addr lines ph => cases ph <;> rfl

lemma handleEvent_address (a : App) (addr : String) (lines : List Line) (ph : Bool) :
    (a.handleEvent (.pageLoaded addr lines ph)).address = addr := by
  cases ph <;> rfl

lemma handleEvent_lines (a : App) (addr : String) (lines : List Line) (ph : Bool) :
    (a.handleEvent (.pageLoaded addr lines ph)).page.lines = lines := by
  cases ph <;> rfl

lemma set_channel_self (a : App) (h : a.channel = []) :
    ({ a with channel := [] } : App) = a := by
  cases a
  simp only at h
  simp [h]

lemma tick_cons (a : App) (e : NetworkEvent) (es : List NetworkEvent)
    (h : a.channel = e :: es) :
    a.tick = ({ a.handleEvent e with channel := es } : App).tick := by
  have h1 : a.tick = App.drainFrom es ({ a.handleEvent e with channel := [] } : App) := by
    unfold App.tick
    rw [h]
    show App.drainFrom es (({ a with channel := [] } : App).handleEvent e) = _
    rw [handleEvent_set_channel]
  rw [h1]
  rfl

lemma tick_of_empty (a : App) (hch : a.channel = []) (hsa : a.senderAlive = true) :
    a.tick = .ok a := by
  unfold App.tick
  rw [hch]
  unfold App.drainFrom
  rw [set_channel_self a hch, hsa]
  rfl

/-- C8: `tick` drains the channel completely and never blocks — with no
pending message it returns the state unchanged — and it applies pending
completion messages via `handle_event` strictly in channel-arrival order
(oldest first), so when several completions are pending the final address
and page lines are those of the message drained last. -/
theorem c8_tick_arrival_order :
    (∀ a : App, a.channel = [] → a.senderAlive = true → a.tick = .ok a) ∧
    (∀ (a : App) (e : NetworkEvent) (es : List NetworkEvent), a.channel = e :: es →
      a.tick = ({ a.handleEvent e with channel := es } : App).tick) ∧
    (∀ (a : App) (es : List NetworkEvent) (addr : String) (lines : List Line) (ph : Bool),
      a.channel = es ++ [.pageLoaded addr lines ph] → a.senderAlive = true →
      ∃ a' : App, a.tick = .ok a' ∧ a'.channel = [] ∧ a'.address = addr ∧
        a'.page.lines = lines) := by
  refine ⟨tick_of_empty, tick_cons, ?_⟩
  intro a es
  induction es generalizing a with
  | nil =>
      intro addr lines ph hch hsa
      rw [tick_cons a _ [] hch]
      refine ⟨{ a.handleEvent (.pageLoaded addr lines ph) with channel := [] }, ?_, rfl,
        handleEvent_address a addr lines ph, handleEvent_lines a addr lines ph⟩
      refine tick_of_empty _ rfl ?_
      show (a.handleEvent (.pageLoaded addr lines ph)).senderAlive = true
      rw [handleEvent_senderAlive]
      exact hsa
  | cons e0 rest ih =>
      intro addr lines ph hch hsa
      rw [tick_cons a e0 (rest ++ [NetworkEvent.pageLoaded addr lines ph]) hch]
      refine ih _ addr lines ph rfl ?_
      show (a.handleEvent e0).senderAlive = true
      rw [handleEvent_senderAlive]
      exact hsa

/-- Witness for `c8_tick_arrival_order`: draining a fresh app is a no-op,
and draining two pending completions ends on the later-arrived one. -/
theorem c8_tick_arrival_order_witness :
    (App.new.tick = .ok App.new) ∧
    (∃ a' : App,
      ({ App.new with channel := [.pageLoaded "gem://x/" [] true,
          .pageLoaded "gem://y/" [Line.text "t"] false] } : App).tick = .ok a' ∧
      a'.channel = [] ∧ a'.address = "gem://y/" ∧ a'.page.lines = [Line.text "t"]) :=
  ⟨c8_tick_arrival_order.1 App.new rfl rfl,
    c8_tick_arrival_order.2.2 _ [.pageLoaded "gem://x/" [] true] "gem://y/"
      [Line.text "t"] false rfl rfl⟩

lemma drainFrom_ok (es : List NetworkEvent) (a : App) (hsa : a.senderAlive = true) :
    ∃ a' : App, App.drainFrom es a = .ok a' ∧ a'.senderAlive = true := by
  induction es generalizing a with
  | nil => exact ⟨a, by unfold App.drainFrom; rw [hsa]; rfl, hsa⟩
  | cons e rest ih =>
      exact ih (a.handleEvent e) (by rw [handleEvent_senderAlive, hsa])

lemma drainFrom_senderAlive (es : List NetworkEvent) (a a' : App)
    (h : App.drainFrom es a = .ok a') : a'.senderAlive = a.senderAlive := by
  induction es generalizing a with
  | nil =>
      unfold App.drainFrom at h
      by_cases hsa : a.senderAlive = true
      · rw [hsa] at h; cases h; rw [hsa]
      · rw [Bool.not_eq_true] at hsa; rw [hsa] at h; cases h
  | cons e rest ih =>
      have := ih (a.handleEvent e) h
      rwa [handleEvent_senderAlive] at this

lemma requestPageFromSelected_senderAlive (a a' : App)
    (h : a.requestPageFromSelected = some a') : a'.senderAlive = a.senderAlive := by
  unfold App.requestPageFromSelected at h
  repeat' split at h
  all_goals first
    | (cases h; rfl)
    | cases h

lemma pagePrev_senderAlive (u : App) : (u.pagePrev).senderAlive = u.senderAlive := by
  rcases hg : u.history.goBack with ⟨h, _ | link⟩ <;> simp [App.pagePrev, hg, App.dispatch]

lemma pageNext_senderAlive (u : App) : (u.pageNext).senderAlive = u.senderAlive := by
  rcases hg : u.history.goForward with ⟨h, _ | link⟩ <;> simp [App.pageNext, hg, App.dispatch]

lemma step_senderAlive (u v : App) (s : Step u v) : v.senderAlive = u.senderAlive := by
  cases s
  case requestPageFromSelected h => exact requestPageFromSelected_senderAlive _ _ h
  case tick h =>
      exact drainFrom_senderAlive u.channel { u with channel := [] } v h
  case pagePrev => exact pagePrev_senderAlive u
  case pageNext => exact pageNext_senderAlive u
  all_goals rfl

lemma reach_senderAlive (a : App) (h : Reach a) : a.senderAlive = true := by
  induction h with
  | refl => rfl
  | tail _ step ih => exact (step_senderAlive _ _ step).trans ih

/-- C10: from any reachable app state, `tick` returns `Ok`: the app always
retains the sender half of its own completion channel, so `try_recv` can
never report disconnection and the error branch of the drain loop is
unreachable. -/
theorem c10_tick_never_errors (a : App) (h : Reach a) :
    ∃ a' : App, a.tick = .ok a' := by
  have hsa := reach_senderAlive a h
  obtain ⟨a', ha', _⟩ := drainFrom_ok a.channel { a with channel := [] }
    (show ({ a with channel := [] } : App).senderAlive = true from hsa)
  exact ⟨a', ha'⟩

/-- Witness for `c10_tick_never_errors` at the freshly constructed app. -/
theorem c10_tick_never_errors_witness :
    ∃ a' : App, App.new.tick = .ok a' :=
  c10_tick_never_errors App.new Relation.ReflTransGen.refl

lemma requestPageFromSelected_resolution (a : App) (i pos : Nat) (line : Line)
    (text : String)
    (hi : a.page.highlighted_link = some i)
    (hpos : a.page.link_indices.get? i = some pos)
    (hline : a.page.lines.get? pos = some line)
    (htext : line.linkTarget = some text) :
    a.requestPageFromSelected =
      (match Url.parse text with
       | .ok url => some (a.dispatch (.pageRequest url.render true))
       | .error .relativeUrlWithoutBase =>
         (match Url.parse a.address with
          | .ok base => some (a.dispatch (.pageRequest ((base.join text).render) true))
          | .error _ => none)
       | .error .other => some a) := by
  simp only [App.requestPageFromSelected, hi, hpos, hline, htext]

/-- C7: `request_page_from_selected` leaves the app unchanged and
dispatches nothing when no link is highlighted or when the highlighted
target is malformed under both absolute and relative resolution; an
absolutely parsed target is dispatched as parsed; a relative target is
joined against `address` as base and the joined address dispatched; each
dispatch is flagged to extend history.  Concretely, with address
`gem://host/dir/page` a target `other` dispatches `gem://host/dir/other`,
the absolute target `gem://other-host/x` dispatches as given, and the
target `ht tp://x` (invalid both ways) dispatches nothing. -/
theorem c7_request_page_from_selected :
    (∀ a : App, a.page.highlighted_link = none → a.requestPageFromSelected = some a) ∧
    (∀ (a : App) (i pos : Nat) (line : Line) (text : String),
      a.page.highlighted_link = some i →
      a.page.link_indices.get? i = some pos →
      a.page.lines.get? pos = some line →
      line.linkTarget = some text →
      (Url.parse text = .error .other → a.requestPageFromSelected = some a) ∧
      (∀ u : Url, Url.parse text = .ok u →
        a.requestPageFromSelected = some (a.dispatch (.pageRequest u.render true))) ∧
      (∀ base : Url, Url.parse text = .error .relativeUrlWithoutBase →
        Url.parse a.address = .ok base →
        a.requestPageFromSelected =
          some (a.dispatch (.pageRequest ((base.join text).render) true)))) ∧
    (∀ a : App, a.address = "gem://host/dir/page" →
      a.page.highlighted_link = some 0 →
      a.page.link_indices = [0] →
      a.page.lines = [Line.link "other" none] →
      a.requestPageFromSelected =
        some (a.dispatch (.pageRequest "gem://host/dir/other" true))) ∧
    (∀ a : App, a.page.highlighted_link = some 0 →
      a.page.link_indices = [0] →
      a.page.lines = [Line.link "gem://other-host/x" none] →
      a.requestPageFromSelected =
        some (a.dispatch (.pageRequest "gem://other-host/x" true))) ∧
    (∀ a : App, a.page.highlighted_link = some 0 →
      a.page.link_indices = [0] →
      a.page.lines = [Line.link "ht tp://x" none] →
      a.requestPageFromSelected = some a) := by
  refine ⟨?_, ?_, ?_, ?_, ?_⟩
  · intro a hl
    simp [App.requestPageFromSelected, hl]
  · intro a i pos line text hi hpos hline htext
    refine ⟨?_, ?_, ?_⟩
    · intro hp
      rw [requestPageFromSelected_resolution a i pos line text hi hpos hline htext, hp]
    · intro u hp
      rw [requestPageFromSelected_resolution a i pos line text hi hpos hline htext, hp]
    · intro base hp hb
      rw [requestPageFromSelected_resolution a i pos line text hi hpos hline htext, hp, hb]
  · intro a ha hl hidx hlines
    rw [requestPageFromSelected_resolution a 0 0 (Line.link "other" none) "other" hl
      (by rw [hidx]; rfl) (by rw [hlines]; rfl) rfl]
    rw [show Url.parse "other" = .error .relativeUrlWithoutBase from rfl, ha]
    rfl
  · intro a hl hidx hlines
    rw [requestPageFromSelected_resolution a 0 0 (Line.link "gem://other-host/x" none)
      "gem://other-host/x" hl (by rw [hidx]; rfl) (by rw [hlines]; rfl) rfl]
    rfl
  · intro a hl hidx hlines
    rw [requestPageFromSelected_resolution a 0 0 (Line.link "ht tp://x" none)
      "ht tp://x" hl (by rw [hidx]; rfl) (by rw [hlines]; rfl) rfl]
    rfl

/-- Witness for `c7_request_page_from_selected` at concrete apps: no
highlight is a no-op, and a highlighted relative link on a concrete page
dispatches the joined address. -/
theorem c7_request_page_from_selected_witness :
    (App.new.requestPageFromSelected = some App.new) ∧
    (({ App.new with
        address := "gem://host/dir/page",
        page := ⟨[Line.link "other" none], [0], [(0, 0)], some 0⟩ } : App).requestPageFromSelected
      = some (({ App.new with
          address := "gem://host/dir/page",
          page := ⟨[Line.link "other" none], [0], [(0, 0)], some 0⟩ } : App).dispatch
            (.pageRequest "gem://host/dir/other" true))) :=
  ⟨c7_request_page_from_selected.1 App.new rfl,
    c7_request_page_from_selected.2.2.1 _ rfl rfl rfl rfl⟩

lemma tickOk_eq (a a' : App) (h : a.tick = .ok a') : a.tickOk = a' := by
  unfold App.tickOk
  rw [h]
  rfl

lemma tick_single (a : App) (ev : NetworkEvent) (hch : a.channel = [ev])
    (hsa : a.senderAlive = true) :
    a.tick = .ok ({ a.handleEvent ev with channel := [] } : App) := by
  rw [tick_cons a ev [] hch]
  exact tick_of_empty _ rfl
    (show (a.handleEvent ev).senderAlive = true from
      (handleEvent_senderAlive a ev).trans hsa)

lemma tickOk_of_empty (a : App) (hch : a.channel = []) (hsa : a.senderAlive = true) :
    a.tickOk = a :=
  tickOk_eq a a (tick_of_empty a hch hsa)

lemma completeFirst_of_pending_nil (a : App) (lines : List Line)
    (h : a.pending = []) : a.completeFirst lines = a := by
  unfold App.completeFirst
  rw [h]

/-- In the synchronous regime: dispatching a request from a quiescent state,
completing it with the given lines, and draining the completion is exactly
one `handle_event` application. -/
lemma sync_complete_state (a : App) (link : String) (ph : Bool) (lines : List Line)
    (hch : a.channel = []) (hpend : a.pending = []) (hsa : a.senderAlive = true) :
    ((a.dispatch (.pageRequest link ph)).completeFirst lines).tickOk
      = ({ a with pending := [], channel := [] } : App).handleEvent
          (.pageLoaded link lines ph) := by
  have hd : a.dispatch (.pageRequest link ph) = ({ a with pending := [(link, ph)] } : App) := by
    show ({ a with pending := a.pending ++ [(link, ph)] } : App) = _
    rw [hpend, List.nil_append]
  have hc : (a.dispatch (.pageRequest link ph)).completeFirst lines
      = ({ a with
            pending := [],
            channel := [NetworkEvent.pageLoaded link lines ph] } : App) := by
    rw [hd]
    show ({ a with
        pending := [],
        channel := a.channel ++ [NetworkEvent.pageLoaded link lines ph] } : App) = _
    rw [hch, List.nil_append]
  have ht := tick_single ({ a with
      pending := [],
      channel := [NetworkEvent.pageLoaded link lines ph] } : App)
    (NetworkEvent.pageLoaded link lines ph) rfl hsa
  rw [hc, tickOk_eq _ _ ht, ← handleEvent_set_channel]

lemma handleEvent_history (a : App) (ad : String) (l : List Line) (ph : Bool) :
    (a.handleEvent (.pageLoaded ad l ph)).history =
      if ph then a.history.push ad else a.history := by
  cases ph <;> rfl

lemma handleEvent_pending (a : App) (e : NetworkEvent) :
    (a.handleEvent e).pending = a.pending := by
  cases e with
  | pageLoaded ad l ph => cases ph <;> rfl

lemma push_prev_getLast (h : History) (l : String) :
    (h.push l).prev.getLast? = some l := by
  simp [History.push]

lemma goBack_some (h h' : History) (l : String) (hg : h.goBack = (h', some l)) :
    h'.prev.getLast? = some l := by
  unfold History.goBack at hg
  by_cases hlen : h.prev.length > 1
  · rw [if_pos hlen] at hg
    injection hg with h1 h2
    rw [← h1]
    exact h2
  · rw [if_neg hlen] at hg
    injection hg with h1 h2
    cases h2
lemma goBack_none (h h' : History) (hg : h.goBack = (h', none)) : h' = h := by
  unfold History.goBack at hg
  by_cases hlen : h.prev.length > 1
  · rw [if_pos hlen] at hg
    injection hg with h1 h2
    have hd : h.prev.dropLast = [] := by
      by_contra hne
      obtain ⟨x, hx⟩ := List.getLast?_isSome.mpr hne |> Option.isSome_iff_exists.mp
      rw [hx] at h2
      cases h2
    have := congrArg List.length hd
    simp [List.length_dropLast] at this
    omega
  · rw [if_neg hlen] at hg
    injection hg with h1 h2
    exact h1.symm

lemma goForward_some (h h' : History) (l : String) (hg : h.goForward = (h', some l)) :
    h'.prev = h.prev ++ [l] := by
  unfold History.goForward at hg
  cases hn : h.next.getLast? with
  | none => rw [hn] at hg; injection hg with h1 h2; cases h2
  | some x =>
      rw [hn] at hg
      injection hg with h1 h2
      injection h2 with h2
      rw [← h1, h2]
lemma goForward_none (h h' : History) (hg : h.goForward = (h', none)) : h' = h := by
  unfold History.goForward at hg
  cases hn : h.next.getLast? with
  | none => rw [hn] at hg; injection hg with h1 h2; exact h1.symm
  | some x => rw [hn] at hg; injection hg with h1 h2; cases h2

lemma rps_cases (a a' : App) (h : a.requestPageFromSelected = some a') :
    a' = a ∨ ∃ u : String, a' = a.dispatch (.pageRequest u true) := by
  unfold App.requestPageFromSelected at h
  repeat' split at h
  all_goals first
    | (cases h; left; rfl)
    | (cases h; right; exact ⟨_, rfl⟩)
    | cases h

/-- The invariant carried through the synchronous regime: the claimed
history/address relation, plus quiescence (nothing buffered, nothing in
flight) and liveness of the channel's retained sender. -/
def SyncInv (a : App) : Prop :=
  (a.history.prev ≠ [] → a.history.prev.getLast? = some a.address) ∧
  a.channel = [] ∧ a.pending = [] ∧ a.senderAlive = true

lemma syncInv_new : SyncInv App.new :=
  ⟨fun hh => absurd rfl hh, rfl, rfl, rfl⟩

lemma syncInv_handleEvent_push (a : App) (link : String) (lines : List Line)
    (hsa : a.senderAlive = true) :
    SyncInv (({ a with pending := [], channel := [] } : App).handleEvent
      (.pageLoaded link lines true)) := by
  refine ⟨?_, handleEvent_channel _ _, handleEvent_pending _ _,
    (handleEvent_senderAlive _ _).trans hsa⟩
  intro _
  rw [handleEvent_history, handleEvent_address, if_pos rfl]
  exact push_prev_getLast _ link

lemma runOp_syncInv (a : App) (o : Op) (h : SyncInv a) : SyncInv (runOp a o) := by
  obtain ⟨hJ, hch, hpend, hsa⟩ := h
  cases o with
  | scrollDown => exact ⟨hJ, hch, hpend, hsa⟩
  | scrollUp => exact ⟨hJ, hch, hpend, hsa⟩
  | pageForward => exact ⟨hJ, hch, hpend, hsa⟩
  | pageBackward => exact ⟨hJ, hch, hpend, hsa⟩
  | nextLink => exact ⟨hJ, hch, hpend, hsa⟩
  | previousLink => exact ⟨hJ, hch, hpend, hsa⟩
  | clearHighlighted => exact ⟨hJ, hch, hpend, hsa⟩
  | setHeight ht => exact ⟨hJ, hch, hpend, hsa⟩
  | tick =>
      show SyncInv a.tickOk
      rw [tickOk_of_empty a hch hsa]
      exact ⟨hJ, hch, hpend, hsa⟩
  | requestInputSync lines =>
      show SyncInv ((a.requestPageFromInput).completeFirst lines).tickOk
      rw [show a.requestPageFromInput = a.dispatch (.pageRequest a.search true) from rfl,
        sync_complete_state a a.search true lines hch hpend hsa]
      exact syncInv_handleEvent_push a a.search lines hsa
  | pagePrevSync lines =>
      show SyncInv ((a.pagePrev).completeFirst lines).tickOk
      rcases hg : a.history.goBack with ⟨h', res⟩
      cases res with
      | some l =>
          rw [show a.pagePrev
              = ({ a with history := h' } : App).dispatch (.pageRequest l false) from by
                unfold App.pagePrev; rw [hg],
            sync_complete_state ({ a with history := h' } : App) l false lines hch hpend hsa]
          refine ⟨?_, handleEvent_channel _ _, handleEvent_pending _ _,
            (handleEvent_senderAlive _ _).trans hsa⟩
          intro _
          rw [handleEvent_history, handleEvent_address, if_neg (by simp)]
          exact goBack_some a.history h' l hg
      | none =>
          rw [show a.pagePrev = ({ a with history := h' } : App) from by
              unfold App.pagePrev; rw [hg],
            completeFirst_of_pending_nil ({ a with history := h' } : App) lines hpend,
            tickOk_of_empty ({ a with history := h' } : App) hch hsa,
            goBack_none a.history h' hg]
          exact ⟨hJ, hch, hpend, hsa⟩
  | pageNextSync lines =>
      show SyncInv ((a.pageNext).completeFirst lines).tickOk
      rcases hg : a.history.goForward with ⟨h', res⟩
      cases res with
      | some l =>
          rw [show a.pageNext
              = ({ a with history := h' } : App).dispatch (.pageRequest l false) from by
                unfold App.pageNext; rw [hg],
            sync_complete_state ({ a with history := h' } : App) l false lines hch hpend hsa]
          refine ⟨?_, handleEvent_channel _ _, handleEvent_pending _ _,
            (handleEvent_senderAlive _ _).trans hsa⟩
          intro _
          rw [handleEvent_history, handleEvent_address, if_neg (by simp)]
          rw [goForward_some a.history h' l hg]
          simp
      | none =>
          rw [show a.pageNext = ({ a with history := h' } : App) from by
              unfold App.pageNext; rw [hg],
            completeFirst_of_pending_nil ({ a with history := h' } : App) lines hpend,
            tickOk_of_empty ({ a with history := h' } : App) hch hsa,
            goForward_none a.history h' hg]
          exact ⟨hJ, hch, hpend, hsa⟩
  | requestSelectedSync lines =>
      show SyncInv (((a.requestPageFromSelected).getD a).completeFirst lines).tickOk
      rcases hsel : a.requestPageFromSelected with _ | a'
      · show SyncInv ((a.completeFirst lines).tickOk)
        rw [completeFirst_of_pending_nil a lines hpend, tickOk_of_empty a hch hsa]
        exact ⟨hJ, hch, hpend, hsa⟩
      · rcases rps_cases a a' hsel with heq | ⟨u, heq⟩
        · rw [heq]
          show SyncInv ((a.completeFirst lines).tickOk)
          rw [completeFirst_of_pending_nil a lines hpend, tickOk_of_empty a hch hsa]
          exact ⟨hJ, hch, hpend, hsa⟩
        · rw [heq]
          show SyncInv (((a.dispatch (.pageRequest u true)).completeFirst lines).tickOk)
          rw [sync_complete_state a u true lines hch hpend hsa]
          exact syncInv_handleEvent_push a u lines hsa

/-- C4 (amended): in the synchronous regime — every operation that
dispatches a fetch has its completion applied before the next operation
runs — after any operation sequence from the fresh app, once `prev` is
non-empty (one page has been pushed) its last element is the address of the
currently displayed page. -/
theorem c4_prev_top_is_address_sync (ops : List Op)
    (hne : (runOps App.new ops).history.prev ≠ []) :
    (runOps App.new ops).history.prev.getLast? =
      some (runOps App.new ops).address := by
  have key : ∀ (l : List Op) (a : App), SyncInv a → SyncInv (List.foldl runOp a l) := by
    intro l
    induction l with
    | nil => intro a ha; exact ha
    | cons o rest ih => intro a ha; exact ih (runOp a o) (runOp_syncInv a o ha)
  exact (key ops App.new syncInv_new).1 hne

/-- Witness for `c4_prev_top_is_address_sync`: after one synchronous
history-extending load, `prev`'s last element is the loaded address. -/
theorem c4_prev_top_is_address_sync_witness :
    (runOps App.new [Op.requestInputSync []]).history.prev.getLast? =
      some (runOps App.new [Op.requestInputSync []]).address :=
  c4_prev_top_is_address_sync [Op.requestInputSync []] (by decide)

def c4s1 : App := App.new.requestPageFromInput
def c4s2 : App := c4s1.completeFirst [Line.link "gem://b/" none]
def c4s3 : App := c4s2.tickOk
def c4s4 : App := c4s3.nextLink
def c4s5 : App := (c4s4.requestPageFromSelected).getD c4s4
def c4s6 : App := c4s5.completeFirst []
def c4s7 : App := c4s6.tickOk
/-- A reachable state refuting the claim's asynchronous invariant: load the
start page, follow a link to `gem://b/`, then press back — `page_prev`
moves the history at once while `address` changes only when the replay
fetch completes. -/
def c4Bad : App := c4s7.pagePrev

/-- C4 counterexample: a reachable app state in which a page has been
pushed (`prev` non-empty) yet the last element of `prev` differs from
`App.address` — right after `page_prev`, before its completion arrives. -/
theorem c4_counterexample :
    Reach c4Bad ∧ c4Bad.history.prev ≠ [] ∧
    c4Bad.history.prev.getLast? ≠ some c4Bad.address := by
  have r1 : Reach c4s1 := Relation.ReflTransGen.refl.tail (Step.requestPageFromInput App.new)
  have r2 : Reach c4s2 := r1.tail (Step.netComplete c4s1 [] []
    "gemini://gemini.circumlunar.space/" true [Line.link "gem://b/" none] rfl)
  have r3 : Reach c4s3 := r2.tail (Step.tick c4s2 c4s3 rfl)
  have r4 : Reach c4s4 := r3.tail (Step.nextLink c4s3)
  have r5 : Reach c4s5 := r4.tail (Step.requestPageFromSelected c4s4 c4s5 rfl)
  have r6 : Reach c4s6 := r5.tail (Step.netComplete c4s5 [] [] "gem://b/" true [] rfl)
  have r7 : Reach c4s7 := r6.tail (Step.tick c4s6 c4s7 rfl)
  exact ⟨r7.tail (Step.pagePrev c4s7), by decide, by decide⟩

/-- C9 (amended): `scroll_down` sets `scroll` to `(scroll + 1) mod 2^16` —
an unchecked `u16` increment that wraps to 0 from 65535 rather than
reaching `scroll + 1` — and `scroll_up` sets `scroll` to `scroll - 1`
saturating at 0. -/
theorem c9_scroll_by_one (a : App) :
    ((a.scrollDown).scroll = (a.scroll + 1) % 65536) ∧
    ((a.scrollUp).scroll = a.scroll - 1) :=
  ⟨rfl, rfl⟩

/-- C9 counterexample: at the maximum representable scroll value 65535,
`scroll_down` does not set `scroll` to `scroll + 1`; it wraps to 0. -/
theorem c9_counterexample :
    ((App.scrollDown { App.new with scroll := 65535 }).scroll = 0) ∧
    ¬((App.scrollDown { App.new with scroll := 65535 }).scroll =
        { App.new with scroll := 65535 }.scroll + 1) :=
  ⟨rfl, by decide⟩

end Comet
